import Mathlib

/-!
Verification of the simplelib probing hash table (`src/hashmap.c`) against its
natural-language specification.

The C code is shallowly embedded: `size_t` arithmetic is modelled as `Nat`
with explicit reduction modulo `2 ^ 64` wherever the C code can wrap, C string
keys are byte lists (`List Nat`, one entry per byte, `none` modelling a NULL
`char` pointer), and `void*` values are `Nat` with `0` modelling the NULL
pointer.  The unbounded C `while` loops are modelled with an explicit fuel
argument; a result of `none` means the loop did not finish within the given
fuel, and every terminating run is reproduced exactly by any sufficiently
large fuel.
-/

namespace Simplelib

/-- The number of values of the C type `size_t` (64-bit). -/
def wordCard : Nat := 2 ^ 64

/-- Modelled from the spec: the hashing collaborator `fnv32a_hash_str`
(declared in `hash.h`, whose definition is not part of the table sources).
Section 1 of the spec treats it as a black box mapping a byte string to a
fixed-width unsigned integer; the comment above `hash_key` in `hashmap.c`
identifies it as an FNV-1a hash and its name fixes the 32-bit variant, so we
model the standard 32-bit FNV-1a over the bytes of the key. -/
def fnv32a_hash_str (s : List Nat) : Nat :=
  s.foldl (fun h b => ((h ^^^ b % 256) * 16777619) % 2 ^ 32) 2166136261

/-- `hash_key` (`hashmap.c` lines 19-27).  `HT_PRIME = 37`.  All arithmetic is
on `size_t`, hence the reductions modulo `wordCard`; in particular `m - 37`
wraps around when `m < 37`, which is modelled by `(m + (wordCard - 37)) %
wordCard`.  A NULL `str` (modelled by `none`) returns 0. -/
def hash_key (str : Option (List Nat)) (rounds m : Nat) : Nat :=
  match str with
  | none => 0
  | some s =>
    let k := fnv32a_hash_str s
    let h1 := k % m
    let h2 := (37 + k % ((m + (wordCard - 37)) % wordCard)) % wordCard
    (h1 + rounds * h2 % wordCard) % wordCard % m

/-- `enum HashSlotMarker` (`hashmap.c` line 31). -/
inductive HashSlotMarker where
  | EMPTY
  | INSERTED
  | DELETED
deriving DecidableEq

/-- `HashSlot` (`hashmap.c` lines 33-37).  `key = none` models a NULL key
pointer and `value = 0` models a NULL value pointer. -/
structure HashSlot where
  key : Option (List Nat)
  value : Nat
  state : HashSlotMarker
deriving DecidableEq

/-- A zero-initialized slot, as produced by `calloc`: NULL key, NULL value,
state `EMPTY` (the zero member of the enum). -/
def emptySlot : HashSlot := ⟨none, 0, .EMPTY⟩

/-- `struct HashMap` (`hashmap.c` lines 39-43).  The slot array is a list
whose length equals `capacity` in every reachable state. -/
structure HashMap where
  slots : List HashSlot
  size : Nat
  capacity : Nat
deriving DecidableEq

/-- `hashmap_create` (`hashmap.c` lines 45-58) with both allocations
succeeding: a zeroed array of `capacity` slots, `size = 0`. -/
def hashmap_create (capacity : Nat) : HashMap :=
  { slots := List.replicate capacity emptySlot, size := 0, capacity := capacity }

/-- The `while` loop of `hashtable_slot_insert` (`hashmap.c` lines 69-105),
with the running `checks` counter explicit and a fuel bound on the number of
iterations (the C loop is unbounded).  The loop condition reads
`slots[index].key != NULL && slots[index].state != EMPTY`; a matching occupied
slot is updated in place, otherwise the first slot failing the loop condition
is claimed.  `strdup` (the `cpy == 0` case) is modelled as always succeeding,
so the returned key handle is the key itself. -/
def slot_insert_loop (slots : List HashSlot) (capacity : Nat) (key : List Nat)
    (value : Nat) (checks fuel : Nat) : Option (List HashSlot × List Nat) :=
  match fuel with
  | 0 => none
  | fuel + 1 =>
    let index := hash_key (some key) checks capacity
    let slot := slots.getD index emptySlot
    if slot.key ≠ none ∧ slot.state ≠ .EMPTY then
      if slot.key = some key then
        some (slots.set index { slot with value := value }, key)
      else
        slot_insert_loop slots capacity key value (checks + 1) fuel
    else
      some (slots.set index ⟨some key, value, .INSERTED⟩, key)

/-- `hashtable_slot_insert` (`hashmap.c` lines 69-105): the probe loop started
at round 0.  The `slots == NULL` guard on line 71 cannot fire here because a
list always models a non-NULL array; the NULL-array case is modelled
separately where it matters (see `hashtable_expand_alloc_failure`). -/
def hashtable_slot_insert (slots : List HashSlot) (capacity : Nat)
    (key : List Nat) (value : Nat) (fuel : Nat) :
    Option (List HashSlot × List Nat) :=
  slot_insert_loop slots capacity key value 0 fuel

/-- One step of the rehash loop of `hashtable_expand` (`hashmap.c` lines
120-126): slots in state `INSERTED` are reinserted into the new array (the
return value of `hashtable_slot_insert` is ignored by the C code, but a probe
loop that does not terminate is propagated as `none`); `EMPTY` and `DELETED`
slots are dropped.  An `INSERTED` slot with a NULL key never occurs in a
reachable state and is skipped. -/
def expand_step (new_capacity fuel : Nat) (acc : Option (List HashSlot))
    (slot : HashSlot) : Option (List HashSlot) :=
  acc.bind fun ns =>
    if slot.state = .INSERTED then
      match slot.key with
      | some k => (slot_insert_loop ns new_capacity k slot.value 0 fuel).map Prod.fst
      | none => some ns
    else
      some ns

/-- `hashtable_expand` (`hashmap.c` lines 115-136) with the `calloc` of the
new array succeeding: capacity is doubled (`size_t` multiplication), every
`INSERTED` slot of the old array is reinserted in index order into a zeroed
array of the new capacity, and the table fields are updated.  Returns the new
capacity alongside the updated table, as the C function does. -/
def hashtable_expand (hm : HashMap) (fuel : Nat) : Option (HashMap × Nat) :=
  let new_capacity := hm.capacity * 2 % wordCard
  (hm.slots.foldl (expand_step new_capacity fuel)
      (some (List.replicate new_capacity emptySlot))).map
    fun ns => ({ hm with slots := ns, capacity := new_capacity }, new_capacity)

/-- `hashtable_expand` (`hashmap.c` lines 115-136) in the case where the
`calloc` of the new array fails and returns NULL.  The C code does not check
the allocation: every `hashtable_slot_insert(new_slots, ...)` call then
returns NULL immediately at the `slots == NULL` guard (line 71) with its
result ignored, so every live entry is dropped; the old array is freed, the
slot pointer becomes NULL (modelled as the empty list) and the capacity is
doubled anyway. -/
def hashtable_expand_alloc_failure (hm : HashMap) : HashMap × Nat :=
  let new_capacity := hm.capacity * 2 % wordCard
  ({ hm with slots := [], capacity := new_capacity }, new_capacity)

/-- `hashmap_insert` (`hashmap.c` lines 138-152).  A NULL value (0) is
rejected with a NULL result and the table unchanged.  Otherwise the table is
expanded first when `size >= capacity / 2`, the key is inserted (or updated)
by the probe loop, and then `size` is incremented unconditionally.  The result
pairs the possibly-updated table with the returned key handle (`none`
modelling a NULL return); the outer `none` means a probe loop exceeded the
fuel. -/
def hashmap_insert (hm : HashMap) (key : List Nat) (value : Nat) (fuel : Nat) :
    Option (HashMap × Option (List Nat)) :=
  if value = 0 then some (hm, none)
  else
    let pre : Option (HashMap × Nat) :=
      if hm.capacity / 2 ≤ hm.size then hashtable_expand hm fuel
      else some (hm, hm.capacity)
    pre.bind fun p =>
      (slot_insert_loop p.1.slots p.2 key value 0 fuel).map fun q =>
        ({ p.1 with slots := q.1, size := (p.1.size + 1) % wordCard }, some q.2)

/-- The `while` loop of `hashmap_remove` (`hashmap.c` lines 155-180).  On a
key match the slot state becomes `DELETED`, its value and key fields are both
set to NULL, and `size` is decremented (`size_t` subtraction); reaching a slot
failing the loop condition reports 0 (not removed). -/
def remove_loop (hm : HashMap) (key : List Nat) (checks fuel : Nat) :
    Option (HashMap × Nat) :=
  match fuel with
  | 0 => none
  | fuel + 1 =>
    let index := hash_key (some key) checks hm.capacity
    let slot := hm.slots.getD index emptySlot
    if slot.key ≠ none ∧ slot.state ≠ .EMPTY then
      if slot.key = some key then
        some ({ hm with
                slots := hm.slots.set index ⟨none, 0, .DELETED⟩
                size := (hm.size + (wordCard - 1)) % wordCard }, 1)
      else
        remove_loop hm key (checks + 1) fuel
    else
      some (hm, 0)

/-- `hashmap_remove` (`hashmap.c` lines 155-180): the probe loop started at
round 0, returning 1 when a slot was deleted and 0 otherwise. -/
def hashmap_remove (hm : HashMap) (key : List Nat) (fuel : Nat) :
    Option (HashMap × Nat) :=
  remove_loop hm key 0 fuel

/-- The `while` loop of `hashmap_get` (`hashmap.c` lines 183-201): same probe
loop shape, returning the stored value on a key match and 0 (NULL) when a slot
failing the loop condition is reached. -/
def get_loop (slots : List HashSlot) (capacity : Nat) (key : List Nat)
    (checks fuel : Nat) : Option Nat :=
  match fuel with
  | 0 => none
  | fuel + 1 =>
    let index := hash_key (some key) checks capacity
    let slot := slots.getD index emptySlot
    if slot.key ≠ none ∧ slot.state ≠ .EMPTY then
      if slot.key = some key then some slot.value
      else get_loop slots capacity key (checks + 1) fuel
    else
      some 0

/-- `hashmap_get` (`hashmap.c` lines 183-201).  A NULL key returns NULL
immediately (line 184), before any probing; otherwise the probe loop runs from
round 0.  The table is taken by constant pointer and never modified. -/
def hashmap_get (hm : HashMap) (key : Option (List Nat)) (fuel : Nat) :
    Option Nat :=
  match key with
  | none => some 0
  | some k => get_loop hm.slots hm.capacity k 0 fuel

/-- Scenario helper: run `hashmap_insert` with ample fuel and keep the
resulting table (falling back to the input table if the fuel were ever
exhausted, which does not happen in any scenario below). -/
def runInsert (hm : HashMap) (key : List Nat) (value : Nat) : HashMap :=
  match hashmap_insert hm key value 64 with
  | some p => p.1
  | none => hm

/-- Scenario helper: run `hashmap_remove` with ample fuel and keep the
resulting table. -/
def runRemove (hm : HashMap) (key : List Nat) : HashMap :=
  match hashmap_remove hm key 64 with
  | some p => p.1
  | none => hm

/-- The byte string "a". -/
def keyA : List Nat := [97]

/-- The byte string "b". -/
def keyB : List Nat := [98]

/-- The byte string "c". -/
def keyC : List Nat := [99]

/-- The byte string "d". -/
def keyD : List Nat := [100]

/-- The byte string "i". -/
def keyI : List Nat := [105]

/-- The byte string "j". -/
def keyJ : List Nat := [106]

/-- The byte string "t". -/
def keyT : List Nat := [116]

/-- Table after insert("a",1), insert("i",2) into create(8).  FNV-1a of "a"
and of "i" are both congruent to 4 mod 8, so "i" probes through the slot of
"a" (index 4) and lands at index 5. -/
def c1pre : HashMap := runInsert (runInsert (hashmap_create 8) keyA 1) keyI 2

/-- `c1pre` after remove("a"). -/
def c1post : HashMap := runRemove c1pre keyA

/-- Table after insert("b",2), insert("j",7) into create(8).  FNV-1a of "b"
and of "j" are both congruent to 5 mod 8, so "j" probes through the slot of
"b" (index 5) and lands at index 7. -/
def c2pre : HashMap := runInsert (runInsert (hashmap_create 8) keyB 2) keyJ 7

/-- `c2pre` after remove("b"). -/
def c2post : HashMap := runRemove c2pre keyB

/-- Table after insert("a",1) followed by the updating insert("a",2) into
create(8). -/
def c3post : HashMap := runInsert (runInsert (hashmap_create 8) keyA 1) keyA 2

/-- Table after the four distinct inserts of the concrete scenario of §8 of
the spec into create(8). -/
def c7state4 : HashMap :=
  runInsert (runInsert (runInsert (runInsert (hashmap_create 8) keyA 1)
    keyB 2) keyC 3) keyD 4

/-- `c7state4` after remove("b"). -/
def c7state5 : HashMap := runRemove c7state4 keyB

/-- `c7state5` after insert("b",5). -/
def c7state6 : HashMap := runInsert c7state5 keyB 5

/-- Table after insert("a",1) into create(2); its load (1 of 2) meets the
resize trigger, so the next insert expands the table. -/
def c9pre : HashMap := runInsert (hashmap_create 2) keyA 1

/-- Table after insert("t",7) into create(8): FNV-1a of "t" is congruent to 3
mod 8, so "t" occupies slot 3, the constant probe index of "d". -/
def c5state : HashMap := runInsert (hashmap_create 8) keyT 7

/-- Table after insert("a",1) into create(2), the starting point of the
concrete resize witness below. -/
def c4pre : HashMap := runInsert (hashmap_create 2) keyA 1

/-- `c4pre` after insert("b",2), which triggers the expansion to capacity 4
before placing "b". -/
def c4post : HashMap := runInsert c4pre keyB 2

/-- Claim C1: the code violates the claim.  In create(8), insert("a",1) and
then insert("i",2) store both keys ("i" probes through the slot of "a");
after remove("a") — no remove of "i" ever happens — get("i") returns NULL
instead of 2, because `hashmap_remove` sets the key field of the removed slot
to NULL and every probe loop stops at the first slot whose key is NULL. -/
theorem c1_get_after_insert_violated :
    hashmap_get c1pre (some keyI) 9 = some 2 ∧
    hashmap_remove c1pre keyA 9 = some (c1post, 1) ∧
    hashmap_get c1post (some keyI) 9 = some 0 := by decide

/-- Claim C2: the code violates the claim.  After remove("b") the removed
slot (index 5) is indeed in state `DELETED` rather than `EMPTY`, but its key
field is set to NULL as well; since the probe loop condition is
`key != NULL && state != EMPTY`, the tombstone terminates probe sequences
exactly like an empty slot, so the key "j" — which probed through slot 5 when
it was inserted — is no longer retrievable: get("j") returns NULL instead
of 7. -/
theorem c2_tombstone_continuity_violated :
    hashmap_get c2pre (some keyJ) 9 = some 7 ∧
    hashmap_remove c2pre keyB 9 = some (c2post, 1) ∧
    (c2post.slots.getD 5 emptySlot).state = .DELETED ∧
    (c2post.slots.getD 5 emptySlot).key = none ∧
    hashmap_get c2post (some keyJ) 9 = some 0 := by decide

/-- Claim C3: the code violates the claim.  Re-inserting the already present
key "a" overwrites the value in place (get returns the new value 2), but
`hashmap_insert` increments `size` unconditionally after a successful
`hashtable_slot_insert`, so `size` grows from 1 to 2 on the update. -/
theorem c3_update_increments_size :
    (runInsert (hashmap_create 8) keyA 1).size = 1 ∧
    hashmap_insert (runInsert (hashmap_create 8) keyA 1) keyA 2 9 =
      some (c3post, some keyA) ∧
    c3post.size = 2 ∧
    hashmap_get c3post (some keyA) 9 = some 2 := by decide

/-- Claim C7, counterexample: after the four inserts of the scenario all
succeed (size = 4), the capacity is still 8, not 16 — the resize check on the
fourth insert compares the pre-insert size 3 against 8 / 2 = 4 and does not
trigger. -/
theorem c7_counterexample :
    (c7state4.size = 4 ∧ c7state4.capacity = 8) ∧ c7state4.capacity ≠ 16 := by
  decide

/-- Claim C7 as amended: in the concrete scenario from create(8), the four
inserts of "a","b","c","d" succeed with size = 4 and no resize (capacity
stays 8, since the pre-insert size 3 is below the threshold 8 / 2 = 4 on the
fourth insert); get("a") = 1 and get("b") = 2; remove("b") succeeds, after
which get("b") is absent and size = 3; insert("b",5) succeeds, after which
get("b") = 5 and size = 4, with capacity still 8. -/
theorem c7_amended_scenario :
    c7state4.size = 4 ∧ c7state4.capacity = 8 ∧
    hashmap_get c7state4 (some keyA) 9 = some 1 ∧
    hashmap_get c7state4 (some keyB) 9 = some 2 ∧
    hashmap_remove c7state4 keyB 9 = some (c7state5, 1) ∧
    hashmap_get c7state5 (some keyB) 9 = some 0 ∧
    c7state5.size = 3 ∧
    hashmap_insert c7state5 keyB 5 9 = some (c7state6, some keyB) ∧
    hashmap_get c7state6 (some keyB) 9 = some 5 ∧
    c7state6.size = 4 ∧ c7state6.capacity = 8 := by decide

/-- Claim C8: confirmed.  For every table, key and fuel, inserting a NULL
value (0) is rejected via the guard on line 139: the call returns the failure
result (NULL key handle) and the table is returned completely unchanged —
same size, capacity and slot contents. -/
theorem c8_null_value_rejected (hm : HashMap) (key : List Nat) (fuel : Nat) :
    hashmap_insert hm key 0 fuel = some (hm, none) := rfl

/-- Claim C9: the code violates the claim.  `hashtable_expand` does not check
the allocation of the new array; when that `calloc` fails, every rehash call
returns NULL immediately (ignored), the old array is freed and the slot
pointer becomes NULL with capacity doubled.  Concretely: a table holding
"a" ↦ 1 ends with no slots, capacity 4 and stale size 1, and get("a") no
longer finds the entry — the old table is destroyed, not left intact. -/
theorem c9_alloc_failure_not_clean :
    hashmap_get c9pre (some keyA) 9 = some 1 ∧
    (hashtable_expand_alloc_failure c9pre).1.slots = [] ∧
    (hashtable_expand_alloc_failure c9pre).1.capacity = 4 ∧
    (hashtable_expand_alloc_failure c9pre).1.size = 1 ∧
    hashmap_get (hashtable_expand_alloc_failure c9pre).1 (some keyA) 9 =
      some 0 := by decide

/-- The FNV-1a accumulator stays below 2 ^ 32. -/
lemma fnv32a_foldl_lt (s : List Nat) (h : Nat) (hh : h < 2 ^ 32) :
    s.foldl (fun h b => ((h ^^^ b % 256) * 16777619) % 2 ^ 32) h < 2 ^ 32 := by
  induction s generalizing h with
  | nil => exact hh
  | cons b s ih => exact ih _ (Nat.mod_lt _ (by norm_num))

/-- The modelled hash collaborator returns a 32-bit value. -/
lemma fnv32a_lt (s : List Nat) : fnv32a_hash_str s < 2 ^ 32 := by
  unfold fnv32a_hash_str
  exact fnv32a_foldl_lt s _ (by norm_num)

/-- Unfolding of `hash_key` on a non-NULL key. -/
lemma hash_key_some (s : List Nat) (r m : Nat) :
    hash_key (some s) r m =
      (fnv32a_hash_str s % m +
          r * ((37 + fnv32a_hash_str s % ((m + (wordCard - 37)) % wordCard))
              % wordCard) % wordCard) % wordCard % m := rfl

/-- The probe function always lands in [0, m) for positive m. -/
lemma hash_key_lt (str : Option (List Nat)) (r m : Nat) (hm : 0 < m) :
    hash_key str r m < m := by
  cases str with
  | none => exact hm
  | some s => exact Nat.mod_lt _ hm

/-- For the key "d" at capacity 8, the probe step `h2 = 37 + fnv("d")` is
divisible by 8, so the probe index is 3 at every round. -/
lemma hash_key_keyD_eight (r : Nat) : hash_key (some keyD) r 8 = 3 := by
  have hk : fnv32a_hash_str keyD = 3775669363 := by decide
  rw [hash_key_some, hk]
  norm_num [wordCard]
  omega

/-- In `c5state`, the probe loop of get("d") runs forever: every round probes
the occupied slot 3, whose key "t" never matches, and no slot with a NULL key
is ever reached. -/
lemma c5_get_loop_diverges (checks fuel : Nat) :
    get_loop c5state.slots c5state.capacity keyD checks fuel = none := by
  have hcap : c5state.capacity = 8 := rfl
  rw [hcap]
  induction fuel generalizing checks with
  | zero => rfl
  | succ n ih =>
    have hslot : c5state.slots.getD 3 emptySlot =
        ⟨some keyT, 7, .INSERTED⟩ := by decide
    simp only [get_loop, hash_key_keyD_eight, hslot]
    have hc1 : (⟨some keyT, 7, .INSERTED⟩ : HashSlot).key ≠ none ∧
        (⟨some keyT, 7, .INSERTED⟩ : HashSlot).state ≠ .EMPTY := by decide
    have hc2 : ¬((⟨some keyT, 7, .INSERTED⟩ : HashSlot).key = some keyD) := by
      decide
    rw [if_pos hc1, if_neg hc2]
    exact ih (checks + 1)

/-- Claim C5: the code violates the claim.  The reachable table `c5state`
(create(8) followed by insert("t",7)) makes get("d") loop forever: the probe
loop of `hashmap_get` has no round cap, the probe index of "d" is 3 at every
round (its probe step is divisible by the capacity 8), and slot 3 is occupied
by the non-matching key "t" — so the lookup exceeds every fuel bound instead
of completing within capacity rounds and reporting "not found". -/
theorem c5_lookup_diverges :
    hashmap_insert (hashmap_create 8) keyT 7 9 = some (c5state, some keyT) ∧
    ∀ fuel, hashmap_get c5state (some keyD) fuel = none := by
  refine ⟨by decide, fun fuel => ?_⟩
  exact c5_get_loop_diverges 0 fuel

/-- Claim C6, counterexample: the formula `(h1 + r × h2) mod m` read over the
natural numbers disagrees with the `size_t` computation of `hash_key` when
`r × h2` wraps modulo 2 ^ 64: with key "a", round r = 2 ^ 34 and capacity
m = 10 ^ 12 + 1, the code produces 55635705674 but the formula yields
276709020290. -/
theorem c6_counterexample :
    hash_key (some keyA) (2 ^ 34) (10 ^ 12 + 1) ≠
      (fnv32a_hash_str keyA % (10 ^ 12 + 1) +
          2 ^ 34 * (37 + fnv32a_hash_str keyA % (10 ^ 12 + 1 - 37))) %
        (10 ^ 12 + 1) := by decide

/-- Claim C6 as amended: for every key string, round r and capacity m with
37 < m < 2 ^ 64, the probe function returns an index in [0, m) and
`h2 = 37 + (k mod (m - 37))` is never 0; and whenever the `size_t` arithmetic
does not wrap (`h1 + r·h2 < 2 ^ 64`, true in particular for every round
arising while probing any table of capacity below 2 ^ 31), the index equals
`(h1 + r × h2) mod m` with `h1 = k mod m`. -/
theorem c6_amended (s : List Nat) (r m : Nat) (hm : 37 < m)
    (hmw : m < 2 ^ 64) :
    hash_key (some s) r m < m ∧
    0 < 37 + fnv32a_hash_str s % (m - 37) ∧
    (fnv32a_hash_str s % m + r * (37 + fnv32a_hash_str s % (m - 37)) <
        2 ^ 64 →
      hash_key (some s) r m =
        (fnv32a_hash_str s % m + r * (37 + fnv32a_hash_str s % (m - 37)))
          % m) := by
  have hk : fnv32a_hash_str s < 4294967296 := by
    have h := fnv32a_lt s
    norm_num at h
    exact h
  have hW : (2 : Nat) ^ 64 = 18446744073709551616 := by norm_num
  have hcard : wordCard = 18446744073709551616 := by norm_num [wordCard]
  rw [hW] at hmw
  have hkle : fnv32a_hash_str s % (m - 37) ≤ fnv32a_hash_str s :=
    Nat.mod_le _ _
  have ht : (m + (wordCard - 37)) % wordCard = m - 37 := by rw [hcard]; omega
  have hh2 : (37 + fnv32a_hash_str s % (m - 37)) % wordCard =
      37 + fnv32a_hash_str s % (m - 37) := by rw [hcard]; omega
  refine ⟨hash_key_lt _ _ _ (by omega), by omega, fun hov => ?_⟩
  rw [hW] at hov
  rw [hash_key_some, ht, hh2]
  have hmul : r * (37 + fnv32a_hash_str s % (m - 37)) % wordCard =
      r * (37 + fnv32a_hash_str s % (m - 37)) := by
    apply Nat.mod_eq_of_lt; rw [hcard]; omega
  rw [hmul]
  have hsum : (fnv32a_hash_str s % m +
      r * (37 + fnv32a_hash_str s % (m - 37))) % wordCard =
      fnv32a_hash_str s % m + r * (37 + fnv32a_hash_str s % (m - 37)) := by
    apply Nat.mod_eq_of_lt; rw [hcard]; exact hov
  rw [hsum]

/-- Witness for `c6_amended` at key "a", round 3, capacity 100. -/
theorem c6_amended_witness :
    (37 < 100 ∧ (100 : Nat) < 2 ^ 64) ∧
    (hash_key (some keyA) 3 100 < 100 ∧
      0 < 37 + fnv32a_hash_str keyA % (100 - 37) ∧
      (fnv32a_hash_str keyA % 100 +
            3 * (37 + fnv32a_hash_str keyA % (100 - 37)) < 2 ^ 64 →
        hash_key (some keyA) 3 100 =
          (fnv32a_hash_str keyA % 100 +
              3 * (37 + fnv32a_hash_str keyA % (100 - 37))) % 100)) :=
  ⟨⟨by decide, by decide⟩, c6_amended keyA 3 100 (by decide) (by decide)⟩

/-- Reading a list at an index other than the one just written. -/
lemma getD_set_ne {α : Type} (l : List α) (i j : Nat) (a d : α) (h : i ≠ j) :
    (l.set i a).getD j d = l.getD j d := by
  rw [List.getD_eq_getElem?_getD, List.getD_eq_getElem?_getD,
    List.getElem?_set_ne h]

/-- Reading a list at the in-bounds index just written. -/
lemma getD_set_self {α : Type} (l : List α) (i : Nat) (a d : α)
    (h : i < l.length) : (l.set i a).getD i d = a := by
  rw [List.getD_eq_getElem?_getD, List.getElem?_set_self h]
  rfl

/-- A terminating run of the probe loop of `hashtable_slot_insert` returns
the key it was given and changes exactly one slot: either a slot already
holding the key (whose value is overwritten in place), or a slot failing the
loop condition (which is claimed for the key). -/
lemma slot_insert_loop_spec (slots : List HashSlot) (capacity : Nat)
    (key : List Nat) (value : Nat) (checks fuel : Nat)
    (slots' : List HashSlot) (rk : List Nat)
    (h : slot_insert_loop slots capacity key value checks fuel =
      some (slots', rk)) :
    rk = key ∧ ∃ j,
      ((slots.getD j emptySlot).key = some key ∧
          (slots.getD j emptySlot).state ≠ .EMPTY ∧
          slots' = slots.set j { slots.getD j emptySlot with value := value }) ∨
        (((slots.getD j emptySlot).key = none ∨
            (slots.getD j emptySlot).state = .EMPTY) ∧
          slots' = slots.set j ⟨some key, value, .INSERTED⟩) := by
  induction fuel generalizing checks with
  | zero => simp [slot_insert_loop] at h
  | succ n ih =>
    simp only [slot_insert_loop] at h
    split at h
    next hcond =>
      split at h
      next hmatch =>
        simp only [Option.some.injEq, Prod.mk.injEq] at h
        obtain ⟨hs, hr⟩ := h
        exact ⟨hr.symm, hash_key (some key) checks capacity,
          Or.inl ⟨hmatch, hcond.2, hs.symm⟩⟩
      next hmatch => exact ih (checks + 1) h
    next hcond =>
      simp only [Option.some.injEq, Prod.mk.injEq] at h
      obtain ⟨hs, hr⟩ := h
      refine ⟨hr.symm, hash_key (some key) checks capacity, Or.inr ⟨?_, hs.symm⟩⟩
      rcases not_and_or.mp hcond with h1 | h1
      · exact Or.inl (not_not.mp h1)
      · exact Or.inr (not_not.mp h1)

/-- The probe loop of `hashtable_slot_insert` preserves the array length. -/
lemma slot_insert_loop_length (slots : List HashSlot) (capacity : Nat)
    (key : List Nat) (value : Nat) (checks fuel : Nat)
    (slots' : List HashSlot) (rk : List Nat)
    (h : slot_insert_loop slots capacity key value checks fuel =
      some (slots', rk)) :
    slots'.length = slots.length := by
  obtain ⟨-, j, hcase⟩ :=
    slot_insert_loop_spec slots capacity key value checks fuel slots' rk h
  rcases hcase with ⟨-, -, hs⟩ | ⟨-, hs⟩ <;> rw [hs, List.length_set]

/-- The lookup loop only reads the key and state fields of probed slots, plus
the value field of a slot whose key matches: two arrays agreeing on those
fields produce identical lookups. -/
lemma get_loop_congr (slots slots' : List HashSlot) (cap : Nat) (x : List Nat)
    (hagree : ∀ i,
      (slots'.getD i emptySlot).key = (slots.getD i emptySlot).key ∧
      (slots'.getD i emptySlot).state = (slots.getD i emptySlot).state ∧
      ((slots.getD i emptySlot).key = some x →
        (slots'.getD i emptySlot).value = (slots.getD i emptySlot).value))
    (c f : Nat) :
    get_loop slots' cap x c f = get_loop slots cap x c f := by
  induction f generalizing c with
  | zero => rfl
  | succ n ih =>
    simp only [get_loop]
    obtain ⟨hkey, hstate, hval⟩ := hagree (hash_key (some x) c cap)
    rw [hkey, hstate]
    by_cases hcond :
        (slots.getD (hash_key (some x) c cap) emptySlot).key ≠ none ∧
        (slots.getD (hash_key (some x) c cap) emptySlot).state ≠ .EMPTY
    · rw [if_pos hcond, if_pos hcond]
      by_cases hmatch :
          (slots.getD (hash_key (some x) c cap) emptySlot).key = some x
      · rw [if_pos hmatch, if_pos hmatch, hval hmatch]
      · rw [if_neg hmatch, if_neg hmatch]
        exact ih (c + 1)
    · rw [if_neg hcond, if_neg hcond]

/-- Claiming a slot that fails the loop condition cannot disturb a lookup
that found its key: such a lookup never probes past a slot failing the loop
condition, so the claimed slot is not on its probe path. -/
lemma get_loop_set_fresh (slots : List HashSlot) (cap : Nat) (x : List Nat)
    (j : Nat) (k2 : List Nat) (v2 : Nat) (w : Nat)
    (hempty : (slots.getD j emptySlot).key = none ∨
      (slots.getD j emptySlot).state = .EMPTY) :
    ∀ (c f : Nat), get_loop slots cap x c f = some w → w ≠ 0 →
      get_loop (slots.set j ⟨some k2, v2, .INSERTED⟩) cap x c f = some w := by
  intro c f
  induction f generalizing c with
  | zero => intro hres _; simp [get_loop] at hres
  | succ n ih =>
    intro hres hw
    simp only [get_loop] at hres ⊢
    by_cases hj : hash_key (some x) c cap = j
    · rw [hj] at hres
      have hcond : ¬((slots.getD j emptySlot).key ≠ none ∧
          (slots.getD j emptySlot).state ≠ .EMPTY) := by
        rcases hempty with h1 | h1
        · exact fun hc => hc.1 h1
        · exact fun hc => hc.2 h1
      rw [if_neg hcond] at hres
      injection hres with hres
      exact absurd hres.symm hw
    · rw [getD_set_ne _ _ _ _ _ fun he => hj he.symm]
      by_cases hcond :
          (slots.getD (hash_key (some x) c cap) emptySlot).key ≠ none ∧
          (slots.getD (hash_key (some x) c cap) emptySlot).state ≠ .EMPTY
      · rw [if_pos hcond] at hres ⊢
        by_cases hmatch :
            (slots.getD (hash_key (some x) c cap) emptySlot).key = some x
        · rw [if_pos hmatch] at hres ⊢
          exact hres
        · rw [if_neg hmatch] at hres ⊢
          exact ih (c + 1) hres hw
      · rw [if_neg hcond] at hres ⊢
        exact hres

/-- A terminating `hashtable_slot_insert` of a different key preserves every
lookup that found its key (with the non-NULL value it found). -/
lemma get_loop_after_slot_insert (slots : List HashSlot) (cap : Nat)
    (key : List Nat) (value : Nat) (checks fuel : Nat)
    (slots' : List HashSlot) (rk : List Nat) (x : List Nat) (c f w : Nat)
    (hins : slot_insert_loop slots cap key value checks fuel =
      some (slots', rk))
    (hx : x ≠ key) (hres : get_loop slots cap x c f = some w) (hw : w ≠ 0) :
    get_loop slots' cap x c f = some w := by
  obtain ⟨-, j, hcase⟩ :=
    slot_insert_loop_spec slots cap key value checks fuel slots' rk hins
  rcases hcase with ⟨hk, hst, hset⟩ | ⟨hemp, hset⟩
  · rw [hset]
    rw [get_loop_congr slots
      (slots.set j { slots.getD j emptySlot with value := value }) cap x ?_ c f]
    · exact hres
    · intro i
      by_cases hij : j = i
      · subst hij
        by_cases hlt : j < slots.length
        · rw [getD_set_self _ _ _ _ hlt]
          refine ⟨hk.symm ▸ rfl, rfl, fun hkx => ?_⟩
          rw [hk] at hkx
          injection hkx with hkx
          exact absurd hkx.symm hx
        · rw [List.set_eq_of_length_le (Nat.le_of_not_lt hlt)]
          exact ⟨rfl, rfl, fun _ => rfl⟩
      · rw [getD_set_ne _ _ _ _ _ hij]
        exact ⟨rfl, rfl, fun _ => rfl⟩
  · rw [hset]
    exact get_loop_set_fresh slots cap x j key value w hemp c f hres hw

/-- After a terminating `hashtable_slot_insert` of a key, looking that key up
from the same starting round finds the inserted value. -/
lemma get_loop_after_own_insert (slots : List HashSlot) (cap : Nat)
    (key : List Nat) (value : Nat) (checks fuel : Nat)
    (slots' : List HashSlot) (rk : List Nat)
    (hlen : slots.length = cap) (hcap : 0 < cap)
    (hins : slot_insert_loop slots cap key value checks fuel =
      some (slots', rk)) :
    ∃ f, get_loop slots' cap key checks f = some value := by
  induction fuel generalizing checks with
  | zero => simp [slot_insert_loop] at hins
  | succ n ih =>
    have hlt : hash_key (some key) checks cap < slots.length := by
      rw [hlen]
      exact hash_key_lt _ _ _ hcap
    simp only [slot_insert_loop] at hins
    split at hins
    next hcond =>
      split at hins
      next hmatch =>
        simp only [Option.some.injEq, Prod.mk.injEq] at hins
        obtain ⟨hs, -⟩ := hins
        refine ⟨1, ?_⟩
        simp only [get_loop]
        rw [← hs, getD_set_self _ _ _ _ hlt]
        dsimp only
        rw [if_pos ⟨hcond.1, hcond.2⟩, if_pos hmatch]
      next hmatch =>
        obtain ⟨f, hf⟩ := ih (checks + 1) hins
        refine ⟨f + 1, ?_⟩
        simp only [get_loop]
        obtain ⟨-, j, hcase⟩ := slot_insert_loop_spec slots cap key value
          (checks + 1) n slots' rk hins
        have hne : j ≠ hash_key (some key) checks cap := by
          intro he
          rcases hcase with ⟨hk, -, -⟩ | ⟨hemp, -⟩
          · rw [he] at hk
            exact hmatch hk
          · rw [he] at hemp
            rcases hemp with h1 | h1
            · exact hcond.1 h1
            · exact hcond.2 h1
        have hslot : slots'.getD (hash_key (some key) checks cap) emptySlot =
            slots.getD (hash_key (some key) checks cap) emptySlot := by
          rcases hcase with ⟨-, -, hset⟩ | ⟨-, hset⟩ <;>
            rw [hset, getD_set_ne _ _ _ _ _ hne]
        rw [hslot, if_pos hcond, if_neg hmatch]
        exact hf
    next hcond =>
      simp only [Option.some.injEq, Prod.mk.injEq] at hins
      obtain ⟨hs, -⟩ := hins
      refine ⟨1, ?_⟩
      simp only [get_loop]
      rw [← hs, getD_set_self _ _ _ _ hlt]
      rw [if_pos ⟨fun h => Option.noConfusion h, fun h => HashSlotMarker.noConfusion h⟩,
        if_pos rfl]

/-- Folding the rehash step over any slot list propagates a NULL
accumulator. -/
lemma expand_foldl_none (l : List HashSlot) (nc fuel : Nat) :
    l.foldl (expand_step nc fuel) none = none := by
  induction l with
  | nil => rfl
  | cons a l ih => rw [List.foldl_cons]; exact ih

/-- A successful rehash fold starts from a successful accumulator. -/
lemma expand_foldl_some (l : List HashSlot) (nc fuel : Nat)
    (acc : Option (List HashSlot)) (ns' : List HashSlot)
    (h : l.foldl (expand_step nc fuel) acc = some ns') :
    ∃ ns, acc = some ns := by
  cases acc with
  | some ns => exact ⟨ns, rfl⟩
  | none => rw [expand_foldl_none] at h; exact absurd h (by simp)

/-- One rehash step preserves the length of the new array. -/
lemma expand_step_length (nc fuel : Nat) (ns ns1 : List HashSlot)
    (a : HashSlot) (h : expand_step nc fuel (some ns) a = some ns1) :
    ns1.length = ns.length := by
  simp only [expand_step, Option.some_bind] at h
  split at h
  next hst =>
    split at h
    next k hak =>
      obtain ⟨p, hsi, hfst⟩ := Option.map_eq_some'.mp h
      rw [← hfst]
      exact slot_insert_loop_length ns nc k a.value 0 fuel p.1 p.2 hsi
    next hak =>
      injection h with h
      rw [← h]
  next hst =>
    injection h with h
    rw [← h]

/-- Rehashing a list of slots none of which holds the key `x` preserves every
lookup of `x` that found a non-NULL value. -/
lemma expand_foldl_preserves (l : List HashSlot) (nc fuel : Nat)
    (x : List Nat) (c f w : Nat) :
    ∀ ns ns'' : List HashSlot,
      l.foldl (expand_step nc fuel) (some ns) = some ns'' →
      (∀ sl ∈ l, sl.state = .INSERTED → sl.key ≠ some x) →
      get_loop ns nc x c f = some w → w ≠ 0 →
      get_loop ns'' nc x c f = some w := by
  induction l with
  | nil =>
    intro ns ns'' h hx hres hw
    rw [List.foldl_nil] at h
    injection h with h
    rw [← h]
    exact hres
  | cons a l ih =>
    intro ns ns'' h hx hres hw
    rw [List.foldl_cons] at h
    obtain ⟨ns1, h1⟩ := expand_foldl_some l nc fuel _ ns'' h
    rw [h1] at h
    have hstep := h1
    simp only [expand_step, Option.some_bind] at hstep
    have htail : ∀ sl ∈ l, sl.state = .INSERTED → sl.key ≠ some x :=
      fun sl hm => hx sl (List.mem_cons_of_mem a hm)
    split at hstep
    next hst =>
      split at hstep
      next k hak =>
        obtain ⟨p, hsi, hfst⟩ := Option.map_eq_some'.mp hstep
        have hxk : x ≠ k := by
          intro he
          exact hx a (List.mem_cons_self a l) hst (by rw [hak, he])
        have hpres := get_loop_after_slot_insert ns nc k a.value 0 fuel
          p.1 p.2 x c f w hsi hxk hres hw
        rw [hfst] at hpres
        exact ih ns1 ns'' h htail hpres hw
      next hak =>
        injection hstep with hstep
        rw [hstep] at hres
        exact ih ns1 ns'' h htail hres hw
    next hst =>
      injection hstep with hstep
      rw [hstep] at hres
      exact ih ns1 ns'' h htail hres hw

/-- After a successful rehash fold over slots with pairwise-distinct occupied
keys and non-NULL values, every occupied entry of the folded list is
retrievable from the resulting array with its stored value. -/
lemma expand_foldl_retrieves (l : List HashSlot) (nc fuel : Nat)
    (hnc : 0 < nc) :
    ∀ ns ns'' : List HashSlot, ns.length = nc →
      l.foldl (expand_step nc fuel) (some ns) = some ns'' →
      l.Pairwise (fun a b =>
        a.state = .INSERTED → b.state = .INSERTED → a.key ≠ b.key) →
      (∀ sl ∈ l, sl.state = .INSERTED → sl.value ≠ 0) →
      ∀ k v, (⟨some k, v, .INSERTED⟩ : HashSlot) ∈ l →
        ∃ f, get_loop ns'' nc k 0 f = some v := by
  induction l with
  | nil =>
    intro ns ns'' _ _ _ _ k v hmem
    exact absurd hmem (List.not_mem_nil _)
  | cons a l ih =>
    intro ns ns'' hlen h hpair hv0 k v hmem
    rw [List.foldl_cons] at h
    obtain ⟨ns1, h1⟩ := expand_foldl_some l nc fuel _ ns'' h
    rw [h1] at h
    have hlen1 : ns1.length = nc := by
      rw [expand_step_length nc fuel ns ns1 a h1]
      exact hlen
    rcases List.mem_cons.mp hmem with heq | htail
    · subst heq
      have h1' : (slot_insert_loop ns nc k v 0 fuel).map Prod.fst =
          some ns1 := h1
      obtain ⟨p, hsi, hfst⟩ := Option.map_eq_some'.mp h1'
      obtain ⟨f0, hf0⟩ :=
        get_loop_after_own_insert ns nc k v 0 fuel p.1 p.2 hlen hnc hsi
      rw [hfst] at hf0
      have hxs : ∀ sl ∈ l, sl.state = .INSERTED → sl.key ≠ some k := by
        intro sl hm hst he
        exact (List.pairwise_cons.mp hpair).1 sl hm rfl hst (by rw [he])
      have hvne : v ≠ 0 :=
        hv0 _ (List.mem_cons_self _ l) rfl
      exact ⟨f0, expand_foldl_preserves l nc fuel k 0 f0 v ns1 ns'' h hxs
        hf0 hvne⟩
    · exact ih ns1 ns'' hlen1 h (List.pairwise_cons.mp hpair).2
        (fun sl hm => hv0 sl (List.mem_cons_of_mem a hm)) k v htail

/-- Shape of a successful `hashtable_expand`: the new capacity is the doubled
old one, and the new slot array is the rehash fold over the old slots started
from a zeroed array of the new capacity. -/
lemma hashtable_expand_spec (hm : HashMap) (fuel : Nat) (hm2 : HashMap)
    (cap2 : Nat) (h : hashtable_expand hm fuel = some (hm2, cap2)) :
    ∃ ns'',
      hm.slots.foldl (expand_step (hm.capacity * 2 % wordCard) fuel)
          (some (List.replicate (hm.capacity * 2 % wordCard) emptySlot)) =
        some ns'' ∧
      hm2 = { hm with
              slots := ns''
              capacity := hm.capacity * 2 % wordCard } ∧
      cap2 = hm.capacity * 2 % wordCard := by
  simp only [hashtable_expand] at h
  obtain ⟨ns'', hfold, heq⟩ := Option.map_eq_some'.mp h
  refine ⟨ns'', hfold, ?_, ?_⟩
  · injection heq with h1 h2
    exact h1.symm
  · injection heq with h1 h2
    exact h2.symm

/-- Claim C4: confirmed (conditioned on the triggered insert returning, which
the fuel encodes).  If a table is in a well-formed state — slot array length
equal to capacity, positive capacity, doubled capacity below 2 ^ 64,
pairwise-distinct keys and non-NULL values in occupied slots, all true in
every reachable state — and an insert of a fresh key with a non-NULL value
meets the 50% load trigger `size ≥ capacity / 2` and completes, then every
key occupying a slot before the resize (in particular every previously
inserted, non-removed key) is still retrievable by get with its stored value
from the resulting table: the rehash walks the old slots in index order,
reinserting occupied entries into the doubled array and dropping the rest. -/
theorem c4_resize_preserves_retrievability
    (hm : HashMap) (k2 : List Nat) (v2 : Nat) (fuel : Nat) (hm2 : HashMap)
    (rk : Option (List Nat)) (k : List Nat) (v : Nat)
    (hcap : 0 < hm.capacity)
    (hcap2 : hm.capacity * 2 < wordCard)
    (hpair : hm.slots.Pairwise fun a b =>
      a.state = .INSERTED → b.state = .INSERTED → a.key ≠ b.key)
    (hv0 : ∀ sl ∈ hm.slots, sl.state = .INSERTED → sl.value ≠ 0)
    (htrig : hm.capacity / 2 ≤ hm.size)
    (hv2 : v2 ≠ 0) (hkk : k ≠ k2)
    (hmem : (⟨some k, v, .INSERTED⟩ : HashSlot) ∈ hm.slots)
    (hins : hashmap_insert hm k2 v2 fuel = some (hm2, rk)) :
    ∃ f, hashmap_get hm2 (some k) f = some v := by
  simp only [hashmap_insert] at hins
  rw [if_neg hv2, if_pos htrig] at hins
  obtain ⟨p, hexp, hrest⟩ := Option.bind_eq_some.mp hins
  obtain ⟨ns'', hfold, hp1, hp2⟩ :=
    hashtable_expand_spec hm fuel p.1 p.2 hexp
  have hnc : hm.capacity * 2 % wordCard = hm.capacity * 2 :=
    Nat.mod_eq_of_lt hcap2
  have hnc0 : 0 < hm.capacity * 2 % wordCard := by omega
  obtain ⟨f0, hf0⟩ := expand_foldl_retrieves hm.slots
    (hm.capacity * 2 % wordCard) fuel hnc0
    (List.replicate (hm.capacity * 2 % wordCard) emptySlot) ns''
    (List.length_replicate _ _) hfold hpair hv0 k v hmem
  have hvne : v ≠ 0 := hv0 _ hmem rfl
  obtain ⟨q, hsi, hq⟩ := Option.map_eq_some'.mp hrest
  have hsi' : slot_insert_loop ns'' (hm.capacity * 2 % wordCard) k2 v2 0 fuel =
      some (q.1, q.2) := by
    rw [hp1] at hsi
    rw [hp2] at hsi
    exact hsi
  have hfinal := get_loop_after_slot_insert ns''
    (hm.capacity * 2 % wordCard) k2 v2 0 fuel q.1 q.2 k 0 f0 v hsi' hkk hf0
    hvne
  refine ⟨f0, ?_⟩
  show get_loop hm2.slots hm2.capacity k 0 f0 = some v
  have hm2eq : hm2 = { p.1 with
      slots := q.1
      size := (p.1.size + 1) % wordCard } := by
    injection hq with h1 h2
    exact h1.symm
  rw [hm2eq, hp1]
  exact hfinal

/-- Witness for `c4_resize_preserves_retrievability`: create(2) followed by
insert("a",1) reaches the trigger; insert("b",2) expands the table to
capacity 4 and "a" is still retrievable with value 1. -/
theorem c4_resize_witness :
    ((0 < c4pre.capacity ∧
        c4pre.capacity * 2 < wordCard ∧ c4pre.capacity / 2 ≤ c4pre.size) ∧
      hashmap_insert c4pre keyB 2 9 = some (c4post, some keyB)) ∧
    ∃ f, hashmap_get c4post (some keyA) f = some 1 :=
  ⟨⟨⟨by decide, by decide, by decide⟩, by decide⟩,
    c4_resize_preserves_retrievability c4pre keyB 2 9 c4post (some keyB)
      keyA 1 (by decide) (by decide) (by decide) (by decide) (by decide)
      (by decide) (by decide) (by decide) (by decide)⟩

/-- Claim C10: confirmed.  For every table, calling get with a NULL key
returns NULL immediately via the guard on line 184 — even with a probe budget
of zero, showing that no slot is probed — and the table is not touched (the
model of get is a pure function of the table, matching the const-qualified C
signature). -/
theorem c10_null_key_get_absent (hm : HashMap) (fuel : Nat) :
    hashmap_get hm none fuel = some 0 := rfl

end Simplelib
